import Mathlib

/-!
Verification development for the xget download pipeline.

The Go sources are shallowly embedded: the filesystem is an association
list from paths to byte contents, bytes are naturals below 256, the
SHA-256 function is an abstract parameter `hash : Bytes → Bytes` (the
claims under study depend only on how its hex encoding is compared, never
on the algorithm itself), and every stateful operation is a pure function
returning the new filesystem state.  Functions keep the names of the Go
functions they embed.
-/

namespace Xget

/-- A file's content: a list of byte values. -/
abbrev Bytes := List Nat

/-- The filesystem: an association list from paths to file contents.
Directories are not modelled; every entry is a regular file. -/
abbrev FS := List (String × Bytes)

/-- Look a path up in the filesystem. -/
def fsGet : FS → String → Option Bytes
  | [], _ => none
  | (p, c) :: rest, q => if p = q then some c else fsGet rest q

/-- Remove a path from the filesystem (os.Remove). -/
def fsRemove : FS → String → FS
  | [], _ => []
  | (p, c) :: rest, q => if p = q then fsRemove rest q else (p, c) :: fsRemove rest q

/-- Create or truncate-and-write a file (os.Create followed by writes). -/
def fsSet (fs : FS) (p : String) (c : Bytes) : FS :=
  (p, c) :: fsRemove fs p

theorem fsGet_fsRemove (fs : FS) (p q : String) :
    fsGet (fsRemove fs p) q = if p = q then none else fsGet fs q := by
  induction fs with
  | nil => simp [fsRemove, fsGet]
  | cons hd tl ih =>
    obtain ⟨r, c⟩ := hd
    by_cases hrp : r = p
    · subst hrp
      by_cases hrq : r = q
      · subst hrq; simp [fsRemove, fsGet, ih]
      · simp [fsRemove, fsGet, hrq, ih]
    · by_cases hrq : r = q
      · subst hrq
        have hpq : p ≠ r := fun h => hrp h.symm
        simp [fsRemove, fsGet, hrp, hpq]
      · simp [fsRemove, fsGet, hrp, hrq, ih]

theorem fsGet_fsSet (fs : FS) (p q : String) (c : Bytes) :
    fsGet (fsSet fs p c) q = if p = q then some c else fsGet fs q := by
  by_cases h : p = q
  · subst h; simp [fsSet, fsGet]
  · simp [fsSet, fsGet, h, fsGet_fsRemove]

/-- One hex digit, lowercase, as produced by Go's encoding/hex hextable.
The argument is taken modulo 16, matching the shift/mask Go applies to a
byte. -/
def hexDigitChar (n : Nat) : Char :=
  if n % 16 < 10 then Char.ofNat (48 + n % 16) else Char.ofNat (87 + n % 16)

/-- The character list of hex.EncodeToString: two lowercase hex digits per
byte, high nibble first. -/
def hexChars : Bytes → List Char
  | [] => []
  | b :: rest => hexDigitChar (b / 16) :: hexDigitChar b :: hexChars rest

/-- hex.EncodeToString: the lowercase hexadecimal encoding of a byte
sequence. -/
def hexEncodeToString (bs : Bytes) : String :=
  String.mk (hexChars bs)

/-- The failure causes of the pipeline.  Go's wrapped errors become
constructors carrying the wrapped cause; `noErr` stands for Go's nil error
where a possibly-nil error is wrapped (downloadWithRetry's lastErr). -/
inductive Err where
  | noErr
  | openFile
  | unsupportedScheme (url : String)
  | invalidS3URL (url : String)
  | aliasNotFound (name : String)
  | creatingSource (e : Err)
  | transport
  | creatingDest
  | writingFile
  | verifyingChecksum (e : Err)
  | checksumMismatch (dest : String)
  | renamingFile
  | checkingCache (e : Err)
  | downloadingFromCache (e : Err)
  | cacheChecksumMismatch
  | cancelled
  | allAttempts (n : Nat) (last : Err)
  | checkingExistingFile (e : Err)
  deriving DecidableEq, Repr

/-- VerifyFileSHA256: open the file, hash its whole content, and compare
the lowercase hex encoding to the expected string by exact equality. -/
def VerifyFileSHA256 (hash : Bytes → Bytes) (fs : FS) (path expected : String) :
    Except Err Bool :=
  match fsGet fs path with
  | none => .error .openFile
  | some content => .ok (hexEncodeToString (hash content) == expected)

/-- An S3 storage backend configuration (config.Alias).  The Go field
named after a Lean keyword is renamed to keyPrefix. -/
structure Alias where
  endpoint : String
  region : String
  bucket : String
  keyPrefix : String
  accessKey : String
  secretKey : String
  deriving DecidableEq, Repr

abbrev AliasMap := List (String × Alias)

def lookupAlias : AliasMap → String → Option Alias
  | [], _ => none
  | (n, a) :: rest, q => if n = q then some a else lookupAlias rest q

/-- A file to download (config.FileEntry). -/
structure FileEntry where
  url : String
  dest : String
  sha256 : String
  deriving DecidableEq, Repr

/-- An S3 source: resolved bucket and full key. -/
structure S3Source where
  bucket : String
  key : String
  deriving DecidableEq, Repr

/-- Character-level prefix test (strings.HasPrefix). -/
def charsPrefix : List Char → List Char → Bool
  | [], _ => true
  | _ :: _, [] => false
  | p :: ps, c :: cs => p == c && charsPrefix ps cs

/-- strings.HasPrefix on the character lists of the two strings. -/
def strStartsWith (s p : String) : Bool :=
  charsPrefix p.data s.data

/-- Split a character list at its first slash (strings.SplitN with limit
2): none when the list has no slash at all. -/
def splitFirstSlash : List Char → Option (List Char × List Char)
  | [] => none
  | c :: rest =>
    if c = '/' then some ([], rest)
    else
      match splitFirstSlash rest with
      | none => none
      | some (a, b) => some (c :: a, b)

/-- parseS3URL: strip the s3:// scheme and split at the first slash into
the alias name and the object path; a locator with no slash after the
scheme is invalid. -/
def parseS3URL (url : String) : Except Err (String × String) :=
  let withoutScheme :=
    if strStartsWith url "s3://" then url.data.drop 5 else url.data
  match splitFirstSlash withoutScheme with
  | none => .error (.invalidS3URL url)
  | some (a, b) => .ok (String.mk a, String.mk b)

/-- newS3Source: parse the locator, look the alias up in the endpoint
table, and prepend the alias's optional key prefix. -/
def newS3Source (url : String) (aliases : AliasMap) : Except Err S3Source :=
  match parseS3URL url with
  | .error e => .error e
  | .ok (aliasName, key) =>
    match lookupAlias aliases aliasName with
    | none => .error (.aliasNotFound aliasName)
    | some a =>
      let fullKey := if a.keyPrefix ≠ "" then a.keyPrefix ++ key else key
      .ok ⟨a.bucket, fullKey⟩

inductive SourceKind where
  | http (url : String)
  | s3 (s : S3Source)
  deriving DecidableEq, Repr

/-- storage.NewSource: dispatch on the URL scheme. -/
def NewSource (url : String) (aliases : AliasMap) : Except Err SourceKind :=
  if strStartsWith url "s3://" then
    match newS3Source url aliases with
    | .error e => .error e
    | .ok s => .ok (.s3 s)
  else if strStartsWith url "http://" || strStartsWith url "https://" then
    .ok (.http url)
  else
    .error (.unsupportedScheme url)

/-- The Range header both HTTPSource.Download and S3Source.Download set:
present exactly when the offset is positive, requesting from the offset to
the end. -/
def httpRangeHeader (offset : Nat) : Option String :=
  if 0 < offset then some ("bytes=" ++ toString offset ++ "-") else none

/-- openPartialFile: if the staging file exists with non-zero size, open
it for append and return its size as the resume offset; otherwise create a
fresh empty staging file at offset 0. -/
def openPartialFile (fs : FS) (path : String) : FS × Nat :=
  match fsGet fs path with
  | some content =>
    if 0 < content.length then (fs, content.length)
    else (fsSet fs path [], 0)
  | none => (fsSet fs path [], 0)

/-- io.Copy into the open staging file: append the served chunks one at a
time, recording the filesystem state after every chunk write.  Returns the
intermediate states and the final state. -/
def copyChunks (fs : FS) (p : String) (cur : Bytes) : List Bytes → List FS × FS
  | [] => ([], fs)
  | c :: rest =>
    let cur2 := cur ++ c
    let fs2 := fsSet fs p cur2
    let out := copyChunks fs2 p cur2 rest
    (fs2 :: out.1, out.2)

/-- finalizeDownload: verify the whole staging file against the expected
digest; on mismatch remove the staging file and fail; on match rename the
staging file to the destination. -/
def finalizeDownload (hash : Bytes → Bytes) (fs : FS) (stagingFile : String)
    (file : FileEntry) : FS × Option Err :=
  match VerifyFileSHA256 hash fs stagingFile file.sha256 with
  | .error e => (fs, some (.verifyingChecksum e))
  | .ok false => (fsRemove fs stagingFile, some (.checksumMismatch file.dest))
  | .ok true =>
    match fsGet fs stagingFile with
    | none => (fs, some .renamingFile)
    | some content => (fsSet (fsRemove fs stagingFile) file.dest content, none)

/-- The environment of one source-transfer attempt: the data the source
serves in chunks, a possible error opening the stream, and a possible
io.Copy failure after a number of chunks. -/
structure SourceOracle where
  chunks : List Bytes
  downloadErr : Option Err
  copyFailAfter : Option Nat
  deriving Repr

/-- downloadFromSource: create the source, open or create the staging file
at destination + ".partial", stream the served chunks into it, then
finalize.  Returns the final filesystem, the outcome, and the trace of
every intermediate filesystem state the attempt produced. -/
def downloadFromSource (hash : Bytes → Bytes) (aliases : AliasMap)
    (orc : SourceOracle) (fs : FS) (file : FileEntry) :
    FS × Option Err × List FS :=
  match NewSource file.url aliases with
  | .error e => (fs, some (.creatingSource e), [])
  | .ok _ =>
    let pp := file.dest ++ ".partial"
    let opened := openPartialFile fs pp
    let fs1 := opened.1
    let states1 : List FS := if opened.2 = 0 then [fs1] else []
    match orc.downloadErr with
    | some e => (fs1, some e, states1)
    | none =>
      let base := (fsGet fs1 pp).getD []
      let served := match orc.copyFailAfter with
        | some k => orc.chunks.take k
        | none => orc.chunks
      let copied := copyChunks fs1 pp base served
      let fs2 := copied.2
      match orc.copyFailAfter with
      | some _ => (fs2, some .writingFile, states1 ++ copied.1)
      | none =>
        let fin := finalizeDownload hash fs2 pp file
        (fin.1, fin.2, states1 ++ copied.1 ++ [fin.1])

/-- The environment of one Cache.Get call: a possible client-construction
error, the result of the existence check, a possible error opening the
cache stream, the chunks the cache serves, and a possible io.Copy failure
after a number of chunks. -/
structure CacheOracle where
  sourceErr : Option Err
  existsResult : Except Err Bool
  downloadErr : Option Err
  chunks : List Bytes
  copyFailAfter : Option Nat
  deriving Repr

/-- Cache.Get: check existence; on a hit, create the destination file,
stream the cache object directly into it, then verify the destination's
digest, removing the destination file on copy failure, verification
failure, or digest mismatch.  Returns (found, error), the final
filesystem, and the trace of every intermediate filesystem state. -/
def cacheGet (hash : Bytes → Bytes) (orc : CacheOracle) (fs : FS)
    (sha256Hash destPath : String) :
    (Bool × Option Err) × FS × List FS :=
  match orc.sourceErr with
  | some e => ((false, some (.creatingSource e)), fs, [])
  | none =>
  match orc.existsResult with
  | .error e => ((false, some (.checkingCache e)), fs, [])
  | .ok false => ((false, none), fs, [])
  | .ok true =>
    match orc.downloadErr with
    | some e => ((false, some (.downloadingFromCache e)), fs, [])
    | none =>
      let fs1 := fsSet fs destPath []
      let served := match orc.copyFailAfter with
        | some k => orc.chunks.take k
        | none => orc.chunks
      let copied := copyChunks fs1 destPath [] served
      let fs2 := copied.2
      let states := fs1 :: copied.1
      match orc.copyFailAfter with
      | some _ =>
        let fs3 := fsRemove fs2 destPath
        ((false, some .writingFile), fs3, states ++ [fs3])
      | none =>
        match VerifyFileSHA256 hash fs2 destPath sha256Hash with
        | .error e =>
          let fs3 := fsRemove fs2 destPath
          ((false, some (.verifyingChecksum e)), fs3, states ++ [fs3])
        | .ok false =>
          let fs3 := fsRemove fs2 destPath
          ((false, some .cacheChecksumMismatch), fs3, states ++ [fs3])
        | .ok true => ((true, none), fs2, states)

/-- checkExistingFile: stat the destination; if present, verify its hash
against the expected digest. -/
def checkExistingFile (hash : Bytes → Bytes) (fs : FS) (file : FileEntry) :
    Except Err Bool :=
  match fsGet fs file.dest with
  | none => .ok false
  | some _ =>
    match VerifyFileSHA256 hash fs file.dest file.sha256 with
    | .error e => .error e
    | .ok valid => .ok valid

/-- tryGetFromCache: false when the cache is disabled; a Cache.Get error
is logged and treated as a miss; otherwise the found flag is returned. -/
def tryGetFromCache (cacheEnabled : Bool) (getResult : Bool × Option Err) : Bool :=
  if cacheEnabled then
    match getResult with
    | (_, some _) => false
    | (found, none) => found
  else false

/-- downloadFile at the outcome level: existing-file short-circuit, then
cache attempt, then the retry-wrapped source download whose outcome is
sourceResult. -/
def downloadFile (existsResult : Except Err Bool) (cacheEnabled : Bool)
    (cacheResult : Bool × Option Err) (sourceResult : Option Err) : Option Err :=
  match existsResult with
  | .error e => some (.checkingExistingFile e)
  | .ok true => none
  | .ok false =>
    if tryGetFromCache cacheEnabled cacheResult then none
    else sourceResult

/-- The network operations a pipeline can perform. -/
inductive NetOp where
  | cacheExists
  | cacheDownload
  | sourceRequest
  deriving DecidableEq, Repr

/-- downloadFile instrumented with the network operations performed:
the existing-file check touches only the local filesystem; the cache
lookup contributes cacheOps when the cache is enabled; the source download
contributes sourceOps. -/
def downloadFileOps (hash : Bytes → Bytes) (fs : FS) (file : FileEntry)
    (cacheEnabled : Bool) (cacheResult : Bool × Option Err)
    (cacheOps sourceOps : List NetOp) (sourceResult : Option Err) :
    Option Err × List NetOp :=
  match checkExistingFile hash fs file with
  | .error e => (some (.checkingExistingFile e), [])
  | .ok true => (none, [])
  | .ok false =>
    let cOps := if cacheEnabled then cacheOps else []
    if tryGetFromCache cacheEnabled cacheResult then (none, cOps)
    else (sourceResult, cOps ++ sourceOps)

/-- Whether the cancellation signal (ctx.Err() != nil) has fired by time
t; none means the signal never fires during the run. -/
def fired (cancelAt : Option Nat) (t : Nat) : Bool :=
  match cancelAt with
  | none => false
  | some c => c ≤ t

/-- The observable events of downloadWithRetry: a retry-delay sleep with
its start time and actual duration, and the start of a numbered transfer
attempt. -/
inductive REv where
  | sleep (start dur : Nat)
  | attemptStart (n start : Nat)
  deriving DecidableEq, Repr

structure RetryOut where
  events : List REv
  result : Option Err
  deriving DecidableEq, Repr

/-- The loop body of downloadWithRetry, time-stamped.  Each iteration:
sleep the full fixed delay when this is not the first attempt (time.Sleep
is not context-aware, so the sleep always runs its whole duration), run
the attempt, return on success, record the failure, and return the
cancellation error if the signal has fired by the post-attempt check. -/
def retryAux (retries : Nat) (attemptResult : Nat → Option Err)
    (attemptDur : Nat → Nat) (delay : Nat) (cancelAt : Option Nat) :
    Nat → Nat → Nat → Err → RetryOut
  | 0, _, _, lastErr => ⟨[], some (.allAttempts retries lastErr)⟩
  | remaining + 1, attemptNo, t, _ =>
    let t1 := if 1 < attemptNo then t + delay else t
    let evs := (if 1 < attemptNo then [REv.sleep t delay] else [])
      ++ [REv.attemptStart attemptNo t1]
    let t2 := t1 + attemptDur attemptNo
    match attemptResult attemptNo with
    | none => ⟨evs, none⟩
    | some e =>
      if fired cancelAt t2 then ⟨evs, some .cancelled⟩
      else
        let rest := retryAux retries attemptResult attemptDur delay cancelAt
          remaining (attemptNo + 1) t2 e
        ⟨evs ++ rest.events, rest.result⟩

/-- downloadWithRetry: up to retries attempts starting at time 0, with the
initial lastErr being Go's nil error. -/
def downloadWithRetry (retries : Nat) (attemptResult : Nat → Option Err)
    (attemptDur : Nat → Nat) (delay : Nat) (cancelAt : Option Nat) : RetryOut :=
  retryAux retries attemptResult attemptDur delay cancelAt retries 1 0 .noErr

/-- The first step of downloadFromSource as seen by the retry loop: when
storage.NewSource fails, the attempt's outcome is that failure wrapped as
a source-creation error; otherwise the attempt proceeds (outcome given by
rest). -/
def sourceCreateGate (url : String) (aliases : AliasMap)
    (rest : Nat → Option Err) : Nat → Option Err :=
  fun n =>
    match NewSource url aliases with
    | .error e => some (.creatingSource e)
    | .ok _ => rest n

def isAttemptStart : REv → Bool
  | .attemptStart _ _ => true
  | _ => false

/-- A per-file outcome record (DownloadResult). -/
structure DownloadResult where
  file : FileEntry
  error : Option Err
  deriving DecidableEq, Repr

def zeroFileEntry : FileEntry := ⟨"", "", ""⟩

def zeroResult : DownloadResult := ⟨zeroFileEntry, none⟩

/-- The fan-in collector of Downloader.Download: results starts as a
zero-valued slice of the task count, and each received message stores its
result at its original index. -/
def collectResults (init : List DownloadResult)
    (msgs : List (Nat × DownloadResult)) : List DownloadResult :=
  msgs.foldl (fun acc m => acc.set m.1 m.2) init

/-- Downloader.Download: every task's goroutine sends exactly one indexed
message carrying that task and its pipeline outcome; order lists the task
indices in the order their messages arrive. -/
def schedulerDownload (tasks : List FileEntry) (errOf : Nat → Option Err)
    (order : List Nat) : List DownloadResult :=
  collectResults (List.replicate tasks.length zeroResult)
    (order.map fun i => (i, ⟨tasks.getD i zeroFileEntry, errOf i⟩))

theorem stagingPath_ne_dest (d : String) : d ++ ".partial" ≠ d := by
  intro h
  have h2 := congrArg String.data h
  rw [String.data_append] at h2
  have h3 := congrArg List.length h2
  simp at h3

theorem hexDigitChar_lower (n : Nat) :
    (hexDigitChar n).toNat ≤ 57 ∨ 97 ≤ (hexDigitChar n).toNat := by
  have key : ∀ m, m < 16 →
      ((if m < 10 then Char.ofNat (48 + m) else Char.ofNat (87 + m)).toNat ≤ 57 ∨
        97 ≤ (if m < 10 then Char.ofNat (48 + m) else Char.ofNat (87 + m)).toNat) := by
    intro m hm
    interval_cases m <;> decide
  have h16 : n % 16 < 16 := Nat.mod_lt _ (by norm_num)
  simpa [hexDigitChar] using key (n % 16) h16

theorem hexChars_lower (bs : Bytes) :
    ∀ c ∈ hexChars bs, c.toNat ≤ 57 ∨ 97 ≤ c.toNat := by
  induction bs with
  | nil => simp [hexChars]
  | cons b rest ih =>
    intro c hc
    simp only [hexChars, List.mem_cons] at hc
    rcases hc with h | h | h
    · subst h; exact hexDigitChar_lower _
    · subst h; exact hexDigitChar_lower _
    · exact ih c h

/-- C10: VerifyFileSHA256 compares the lowercase hex encoding of the
computed hash to the expected string by exact string equality, so an
expected digest containing any uppercase hex letter (code points 65-70)
never verifies, whatever the file's content and hash value. -/
theorem uppercaseDigestNeverVerifies (hash : Bytes → Bytes) (fs : FS)
    (path : String) (content : Bytes) (hp : fsGet fs path = some content)
    (expected : String) (c : Char) (hc : c ∈ expected.data)
    (hA : 65 ≤ c.toNat) (hF : c.toNat ≤ 70) :
    VerifyFileSHA256 hash fs path expected = .ok false := by
  have hne : hexEncodeToString (hash content) ≠ expected := by
    intro he
    have hdata : hexChars (hash content) = expected.data := congrArg String.data he
    rw [← hdata] at hc
    rcases hexChars_lower _ c hc with h | h <;> omega
  unfold VerifyFileSHA256
  rw [hp]
  exact congrArg Except.ok (beq_eq_false_iff_ne.mpr hne)

/-- Witness for C10 at a concrete input: the file content is the byte 171,
the hash is the identity, so the correct lowercase encoding is "ab"; the
uppercase expected digest "AB" denotes the same value yet never
verifies. -/
theorem uppercaseDigestNeverVerifies_witness :
    fsGet [("p", [171])] "p" = some [171] ∧
    ('A' : Char) ∈ "AB".data ∧ 65 ≤ ('A' : Char).toNat ∧ ('A' : Char).toNat ≤ 70 ∧
    hexEncodeToString ((fun b => b) [171]) = "ab" ∧
    VerifyFileSHA256 (fun b => b) [("p", [171])] "p" "AB" = .ok false :=
  ⟨by decide, by decide, by decide, by decide, by decide,
    uppercaseDigestNeverVerifies (fun b => b) [("p", [171])] "p" [171] (by decide)
      "AB" 'A' (by decide) (by decide) (by decide)⟩

/-- C2: when the staging file's digest does not match the expected digest,
finalizeDownload removes the staging file, returns the checksum-mismatch
error, and leaves the destination path untouched. -/
theorem checksumMismatchDiscardsStaging (hash : Bytes → Bytes) (fs : FS)
    (file : FileEntry) (content : Bytes)
    (hp : fsGet fs (file.dest ++ ".partial") = some content)
    (hm : hexEncodeToString (hash content) ≠ file.sha256) :
    finalizeDownload hash fs (file.dest ++ ".partial") file =
      (fsRemove fs (file.dest ++ ".partial"), some (.checksumMismatch file.dest)) ∧
    fsGet (finalizeDownload hash fs (file.dest ++ ".partial") file).1
      (file.dest ++ ".partial") = none ∧
    fsGet (finalizeDownload hash fs (file.dest ++ ".partial") file).1 file.dest =
      fsGet fs file.dest := by
  have hbeq : (hexEncodeToString (hash content) == file.sha256) = false :=
    beq_eq_false_iff_ne.mpr hm
  have heq : finalizeDownload hash fs (file.dest ++ ".partial") file =
      (fsRemove fs (file.dest ++ ".partial"), some (.checksumMismatch file.dest)) := by
    unfold finalizeDownload VerifyFileSHA256
    rw [hp]
    simp [hbeq]
  refine ⟨heq, ?_, ?_⟩
  · rw [heq, fsGet_fsRemove]
    simp
  · rw [heq, fsGet_fsRemove]
    simp [stagingPath_ne_dest]

/-- Witness for C2: staging holds the byte 2 whose identity-hash encodes
to "02", the expected digest is "01". -/
theorem checksumMismatchDiscardsStaging_witness :
    fsGet [("d.partial", [2])] ("d" ++ ".partial") = some [2] ∧
    hexEncodeToString ((fun b => b) [2]) ≠ "01" ∧
    (finalizeDownload (fun b => b) [("d.partial", [2])] ("d" ++ ".partial")
        ⟨"http://h/f", "d", "01"⟩ =
      (fsRemove [("d.partial", [2])] ("d" ++ ".partial"),
        some (.checksumMismatch "d")) ∧
      fsGet (finalizeDownload (fun b => b) [("d.partial", [2])] ("d" ++ ".partial")
        ⟨"http://h/f", "d", "01"⟩).1 ("d" ++ ".partial") = none ∧
      fsGet (finalizeDownload (fun b => b) [("d.partial", [2])] ("d" ++ ".partial")
        ⟨"http://h/f", "d", "01"⟩).1 "d" = fsGet [("d.partial", [2])] "d") :=
  ⟨by decide, by decide,
    checksumMismatchDiscardsStaging (fun b => b) [("d.partial", [2])]
      ⟨"http://h/f", "d", "01"⟩ [2] (by decide) (by decide)⟩

/-- C3: a staging file of non-zero size K is opened for append (the
filesystem is unchanged) with resume offset K and the request carries the
range header "bytes=K-"; a missing or empty staging file is created fresh
and empty at offset 0 and the request carries no range header, for any
resume point K below the total size. -/
theorem resumeOffsetAndRange (fs : FS) (dest : String) (K total : Nat)
    (_hK : K < total) :
    (∀ content, fsGet fs (dest ++ ".partial") = some content →
      content.length = K → 0 < K →
      openPartialFile fs (dest ++ ".partial") = (fs, K) ∧
      httpRangeHeader K = some ("bytes=" ++ toString K ++ "-")) ∧
    ((fsGet fs (dest ++ ".partial") = none ∨
        fsGet fs (dest ++ ".partial") = some []) →
      openPartialFile fs (dest ++ ".partial") =
        (fsSet fs (dest ++ ".partial") [], 0) ∧
      httpRangeHeader 0 = none) := by
  refine ⟨fun content hc hlen hpos => ⟨?_, ?_⟩, fun h => ⟨?_, ?_⟩⟩
  · unfold openPartialFile
    rw [hc]
    simp [hlen, hpos]
  · unfold httpRangeHeader
    simp [hpos]
  · rcases h with h | h
    · unfold openPartialFile
      rw [h]
    · unfold openPartialFile
      rw [h]
      simp
  · rfl

/-- Witness for C3 at a concrete input: a 2-byte staging file resumes at
offset 2 with range "bytes=2-", and the empty case creates a fresh file
with no range. -/
theorem resumeOffsetAndRange_witness :
    (2 : Nat) < 5 ∧
    ((∀ content, fsGet [("d.partial", [9, 9])] ("d" ++ ".partial") = some content →
        content.length = 2 → 0 < 2 →
        openPartialFile [("d.partial", [9, 9])] ("d" ++ ".partial") =
          ([("d.partial", [9, 9])], 2) ∧
        httpRangeHeader 2 = some ("bytes=" ++ toString 2 ++ "-")) ∧
      ((fsGet [("d.partial", [9, 9])] ("d" ++ ".partial") = none ∨
          fsGet [("d.partial", [9, 9])] ("d" ++ ".partial") = some []) →
        openPartialFile [("d.partial", [9, 9])] ("d" ++ ".partial") =
          (fsSet [("d.partial", [9, 9])] ("d" ++ ".partial") [], 0) ∧
        httpRangeHeader 0 = none)) :=
  ⟨by decide, resumeOffsetAndRange [("d.partial", [9, 9])] "d" 2 5 (by decide)⟩

/-- Whether a filesystem state fsI leaves the destination path unchanged
from the initial state fs0, or holds fully verified content there. -/
def destClean (hash : Bytes → Bytes) (fs0 fsI : FS) (dest sha : String) : Bool :=
  (fsGet fsI dest == fsGet fs0 dest) ||
    (match fsGet fsI dest with
     | some c => hexEncodeToString (hash c) == sha
     | none => false)

theorem destClean_of_eq (hash : Bytes → Bytes) (fs0 fsI : FS) (dest sha : String)
    (h : fsGet fsI dest = fsGet fs0 dest) :
    destClean hash fs0 fsI dest sha = true := by
  unfold destClean
  rw [h]
  simp

theorem destClean_of_verified (hash : Bytes → Bytes) (fs0 fsI : FS)
    (dest sha : String) (c : Bytes) (h : fsGet fsI dest = some c)
    (hv : hexEncodeToString (hash c) = sha) :
    destClean hash fs0 fsI dest sha = true := by
  unfold destClean
  rw [h]
  simp [hv]

theorem openPartialFile_preserves (fs : FS) (p q : String) (hq : q ≠ p) :
    fsGet (openPartialFile fs p).1 q = fsGet fs q := by
  have hpq : p ≠ q := fun hh => hq hh.symm
  unfold openPartialFile
  cases h : fsGet fs p with
  | none => simp [fsGet_fsSet, hpq]
  | some content =>
    by_cases hl : 0 < content.length
    · simp [hl]
    · simp [hl, fsGet_fsSet, hpq]

theorem copyChunks_preserves (p q : String) (hq : q ≠ p) :
    ∀ (chunks : List Bytes) (fs : FS) (cur : Bytes),
      (∀ fsI ∈ (copyChunks fs p cur chunks).1, fsGet fsI q = fsGet fs q) ∧
      fsGet (copyChunks fs p cur chunks).2 q = fsGet fs q := by
  have hpq : p ≠ q := fun hh => hq hh.symm
  intro chunks
  induction chunks with
  | nil =>
    intro fs cur
    simp [copyChunks]
  | cons c rest ih =>
    intro fs cur
    have hset : fsGet (fsSet fs p (cur ++ c)) q = fsGet fs q := by
      rw [fsGet_fsSet]
      simp [hpq]
    obtain ⟨ihs, ihf⟩ := ih (fsSet fs p (cur ++ c)) (cur ++ c)
    constructor
    · intro fsI hI
      simp only [copyChunks, List.mem_cons] at hI
      rcases hI with h | h
      · subst h; exact hset
      · rw [ihs fsI h, hset]
    · show fsGet (copyChunks (fsSet fs p (cur ++ c)) p (cur ++ c) rest).2 q = _
      rw [ihf, hset]

theorem finalizeDownload_destClean (hash : Bytes → Bytes) (fs0 fs2 : FS)
    (file : FileEntry) (hpre : fsGet fs2 file.dest = fsGet fs0 file.dest) :
    destClean hash fs0
      (finalizeDownload hash fs2 (file.dest ++ ".partial") file).1
      file.dest file.sha256 = true := by
  have hdpp : file.dest ≠ file.dest ++ ".partial" :=
    fun h => stagingPath_ne_dest file.dest h.symm
  unfold finalizeDownload VerifyFileSHA256
  cases hg : fsGet fs2 (file.dest ++ ".partial") with
  | none => exact destClean_of_eq _ _ _ _ _ hpre
  | some content =>
    by_cases hv : (hexEncodeToString (hash content) == file.sha256) = true
    · simp only [hg, hv]
      refine destClean_of_verified _ _ _ _ _ content ?_ (eq_of_beq hv)
      rw [fsGet_fsSet]
      simp
    · have hv' : (hexEncodeToString (hash content) == file.sha256) = false :=
        Bool.eq_false_iff.mpr (fun hh => hv hh)
      simp only [hg, hv']
      refine destClean_of_eq _ _ _ _ _ ?_
      rw [fsGet_fsRemove]
      simp [stagingPath_ne_dest file.dest, hpre]

/-- C1 amended: during a source transfer, every intermediate filesystem
state and the final state either leaves the destination path unchanged or
holds fully verified content there; the only step that changes the
destination is the post-verification rename. -/
theorem sourceTransferPublishesOnlyVerified (hash : Bytes → Bytes)
    (aliases : AliasMap) (orc : SourceOracle) (fs : FS) (file : FileEntry) :
    (∀ fsI ∈ (downloadFromSource hash aliases orc fs file).2.2,
      destClean hash fs fsI file.dest file.sha256 = true) ∧
    destClean hash fs (downloadFromSource hash aliases orc fs file).1
      file.dest file.sha256 = true := by
  obtain ⟨chunks, dErr, cfa⟩ := orc
  have hdpp : file.dest ≠ file.dest ++ ".partial" :=
    fun h => stagingPath_ne_dest file.dest h.symm
  have h1 : fsGet (openPartialFile fs (file.dest ++ ".partial")).1 file.dest =
      fsGet fs file.dest :=
    openPartialFile_preserves fs _ _ hdpp
  unfold downloadFromSource
  cases hsrc : NewSource file.url aliases with
  | error e =>
    exact ⟨fun fsI hI => by simp at hI, destClean_of_eq _ _ _ _ _ rfl⟩
  | ok s =>
    simp only
    have hstates1 : ∀ fsI ∈ (if (openPartialFile fs (file.dest ++ ".partial")).2 = 0
        then [(openPartialFile fs (file.dest ++ ".partial")).1] else []),
        destClean hash fs fsI file.dest file.sha256 = true := by
      intro fsI hI
      by_cases hz : (openPartialFile fs (file.dest ++ ".partial")).2 = 0
      · simp [hz] at hI
        subst hI
        exact destClean_of_eq _ _ _ _ _ h1
      · simp [hz] at hI
    cases dErr with
    | some e =>
      exact ⟨hstates1, destClean_of_eq _ _ _ _ _ h1⟩
    | none =>
      cases cfa with
      | some k =>
        simp only
        obtain ⟨hcs, hcf⟩ := copyChunks_preserves (file.dest ++ ".partial")
          file.dest hdpp (chunks.take k)
          (openPartialFile fs (file.dest ++ ".partial")).1
          ((fsGet (openPartialFile fs (file.dest ++ ".partial")).1
            (file.dest ++ ".partial")).getD [])
        constructor
        · intro fsI hI
          rw [List.mem_append] at hI
          rcases hI with hI | hI
          · exact hstates1 fsI hI
          · exact destClean_of_eq _ _ _ _ _ ((hcs fsI hI).trans h1)
        · exact destClean_of_eq _ _ _ _ _ (hcf.trans h1)
      | none =>
        simp only
        obtain ⟨hcs, hcf⟩ := copyChunks_preserves (file.dest ++ ".partial")
          file.dest hdpp chunks
          (openPartialFile fs (file.dest ++ ".partial")).1
          ((fsGet (openPartialFile fs (file.dest ++ ".partial")).1
            (file.dest ++ ".partial")).getD [])
        have hfin := finalizeDownload_destClean hash fs
          (copyChunks (openPartialFile fs (file.dest ++ ".partial")).1
            (file.dest ++ ".partial")
            ((fsGet (openPartialFile fs (file.dest ++ ".partial")).1
              (file.dest ++ ".partial")).getD []) chunks).2
          file (hcf.trans h1)
        constructor
        · intro fsI hI
          rw [List.mem_append] at hI
          rcases hI with hI | hI
          · rw [List.mem_append] at hI
            rcases hI with hI | hI
            · exact hstates1 fsI hI
            · exact destClean_of_eq _ _ _ _ _ ((hcs fsI hI).trans h1)
          · rw [List.mem_singleton] at hI
            subst hI
            exact hfin
        · exact hfin

/-- C1 counterexample: during cache retrieval the code streams the cache
object directly to the destination path before verifying it.  With a
corrupted cache entry (identity hash, expected digest "01", cache serving
the byte 2), the trace of Cache.Get contains a state in which the
destination holds unverified content that matches neither the initial
state nor the expected digest. -/
theorem destinationHoldsUnverified_counterexample :
    (cacheGet (fun b => b) ⟨none, .ok true, none, [[2]], none⟩ [] "01" "d").2.2 =
      [[("d", [])], [("d", [2])], []] ∧
    [("d", [2])] ∈
      (cacheGet (fun b => b) ⟨none, .ok true, none, [[2]], none⟩ [] "01" "d").2.2 ∧
    destClean (fun b => b) [] [("d", [2])] "d" "01" = false := by
  refine ⟨by decide, by decide, by decide⟩

/-- Witness for the amended C1 at a concrete successful transfer: the
final state publishes verified content at the destination, and every
traced state is clean. -/
theorem sourceTransferPublishesOnlyVerified_witness :
    (∀ fsI ∈ (downloadFromSource (fun _ => [0]) [] ⟨[[1]], none, none⟩ []
        ⟨"http://h/f", "d", "00"⟩).2.2,
      destClean (fun _ => [0]) [] fsI "d" "00" = true) ∧
    destClean (fun _ => [0]) []
      (downloadFromSource (fun _ => [0]) [] ⟨[[1]], none, none⟩ []
        ⟨"http://h/f", "d", "00"⟩).1 "d" "00" = true :=
  sourceTransferPublishesOnlyVerified (fun _ => [0]) [] ⟨[[1]], none, none⟩ []
    ⟨"http://h/f", "d", "00"⟩

/-- C9: whenever Cache.Get has created the destination file (its state
trace is non-empty) and returns without success, the destination path is
absent from the final filesystem. -/
theorem cacheGetRemovesDestOnFailure (hash : Bytes → Bytes) (orc : CacheOracle)
    (fs : FS) (sha dest : String)
    (hcreated : (cacheGet hash orc fs sha dest).2.2 ≠ [])
    (hfail : (cacheGet hash orc fs sha dest).1 ≠ (true, none)) :
    fsGet (cacheGet hash orc fs sha dest).2.1 dest = none := by
  obtain ⟨sErr, exR, dErr, chunks, cfa⟩ := orc
  cases sErr with
  | some e => simp [cacheGet] at hcreated
  | none =>
    cases exR with
    | error e => simp [cacheGet] at hcreated
    | ok b =>
      cases b with
      | false => simp [cacheGet] at hcreated
      | true =>
        cases dErr with
        | some e => simp [cacheGet] at hcreated
        | none =>
          cases cfa with
          | some k =>
            show fsGet (fsRemove _ dest) dest = none
            rw [fsGet_fsRemove]
            simp
          | none =>
            simp only [cacheGet] at hfail ⊢
            cases hv : VerifyFileSHA256 hash
                (copyChunks (fsSet fs dest []) dest [] chunks).2 dest sha with
            | error e =>
              show fsGet (fsRemove _ dest) dest = none
              rw [fsGet_fsRemove]
              simp
            | ok v =>
              cases v with
              | false =>
                show fsGet (fsRemove _ dest) dest = none
                rw [fsGet_fsRemove]
                simp
              | true =>
                rw [hv] at hfail
                simp at hfail

/-- Witness for C9: the corrupted-cache scenario creates the destination,
fails the digest check, and leaves no destination file behind. -/
theorem cacheGetRemovesDestOnFailure_witness :
    (cacheGet (fun b => b) ⟨none, .ok true, none, [[2]], none⟩ [] "01" "d").2.2 ≠ [] ∧
    (cacheGet (fun b => b) ⟨none, .ok true, none, [[2]], none⟩ [] "01" "d").1 ≠
      (true, none) ∧
    fsGet (cacheGet (fun b => b) ⟨none, .ok true, none, [[2]], none⟩ [] "01" "d").2.1
      "d" = none :=
  ⟨by decide, by decide,
    cacheGetRemovesDestOnFailure (fun b => b) ⟨none, .ok true, none, [[2]], none⟩
      [] "01" "d" (by decide) (by decide)⟩

/-- C6: a cache miss, a cache error, or a digest mismatch on retrieved
cache bytes (any Cache.Get result that is not a clean hit) leaves the
pipeline outcome exactly the outcome of the retry-wrapped source download:
no error is attached because of the cache. -/
theorem cacheFailureNonfatal (cacheEnabled : Bool) (res : Bool × Option Err)
    (sourceResult : Option Err) (h : res.1 = false ∨ res.2 ≠ none) :
    downloadFile (.ok false) cacheEnabled res sourceResult = sourceResult ∧
    downloadFile (.ok false) cacheEnabled res sourceResult =
      downloadFile (.ok false) cacheEnabled (false, none) sourceResult := by
  have hget : tryGetFromCache cacheEnabled res = false := by
    unfold tryGetFromCache
    obtain ⟨b, e⟩ := res
    cases e with
    | some e0 => cases cacheEnabled <;> simp
    | none =>
      rcases h with h | h
      · simp only at h
        cases cacheEnabled <;> simp [h]
      · simp at h
  have hnone : tryGetFromCache cacheEnabled (false, none) = false := by
    unfold tryGetFromCache
    cases cacheEnabled <;> simp
  have hdf : downloadFile (.ok false) cacheEnabled res sourceResult = sourceResult := by
    unfold downloadFile
    rw [hget]
    simp
  refine ⟨hdf, ?_⟩
  rw [hdf]
  unfold downloadFile
  rw [hnone]
  simp

/-- Witness for C6: the cache outcome is the digest-mismatch failure that
Cache.Get produces when the cache serves corrupted bytes, and the pipeline
outcome is exactly the source outcome. -/
theorem cacheFailureNonfatal_witness :
    (((cacheGet (fun b => b) ⟨none, .ok true, none, [[2]], none⟩ [] "01" "d").1.1
        = false ∨
      (cacheGet (fun b => b) ⟨none, .ok true, none, [[2]], none⟩ [] "01" "d").1.2
        ≠ none) ∧
     (downloadFile (.ok false) true
        (cacheGet (fun b => b) ⟨none, .ok true, none, [[2]], none⟩ [] "01" "d").1
        none = none ∧
      downloadFile (.ok false) true
        (cacheGet (fun b => b) ⟨none, .ok true, none, [[2]], none⟩ [] "01" "d").1
        none =
        downloadFile (.ok false) true (false, none) none)) :=
  ⟨Or.inl (by decide),
    cacheFailureNonfatal true
      (cacheGet (fun b => b) ⟨none, .ok true, none, [[2]], none⟩ [] "01" "d").1
      none (Or.inl (by decide))⟩

theorem retryAux_sleep_full (retries : Nat) (ar : Nat → Option Err)
    (ad : Nat → Nat) (delay : Nat) (cancelAt : Option Nat) :
    ∀ (remaining attemptNo t : Nat) (lastErr : Err) (s d : Nat),
      REv.sleep s d ∈
        (retryAux retries ar ad delay cancelAt remaining attemptNo t lastErr).events →
      d = delay := by
  intro remaining
  induction remaining with
  | zero =>
    intro attemptNo t lastErr s d h
    simp [retryAux] at h
  | succ m ih =>
    intro attemptNo t lastErr s d h
    by_cases hlt : 1 < attemptNo
    · cases har : ar attemptNo with
      | none =>
        simp [retryAux, hlt, har] at h
        omega
      | some e =>
        by_cases hf : fired cancelAt (t + delay + ad attemptNo) = true
        · simp [retryAux, hlt, har, hf] at h
          omega
        · simp [retryAux, hlt, har, hf] at h
          rcases h with h | h
          · omega
          · exact ih _ _ _ s d h
    · cases har : ar attemptNo with
      | none => simp [retryAux, hlt, har] at h
      | some e =>
        by_cases hf : fired cancelAt (t + ad attemptNo) = true
        · simp [retryAux, hlt, har, hf] at h
        · simp [retryAux, hlt, har, hf] at h
          exact ih _ _ _ s d h

theorem retryAux_attemptStart_check (retries : Nat) (ar : Nat → Option Err)
    (ad : Nat → Nat) (delay : Nat) (cancelAt : Option Nat) :
    ∀ (remaining attemptNo t : Nat) (lastErr : Err),
      (attemptNo = 1 ∨ fired cancelAt t = false) →
      ∀ n s, REv.attemptStart n s ∈
          (retryAux retries ar ad delay cancelAt remaining attemptNo t lastErr).events →
        2 ≤ n → ∃ t0, s = t0 + delay ∧ fired cancelAt t0 = false := by
  intro remaining
  induction remaining with
  | zero =>
    intro attemptNo t lastErr hpre n s h hn
    simp [retryAux] at h
  | succ m ih =>
    intro attemptNo t lastErr hpre n s h hn
    have hfirst : REv.attemptStart n s =
        REv.attemptStart attemptNo (if 1 < attemptNo then t + delay else t) →
        ∃ t0, s = t0 + delay ∧ fired cancelAt t0 = false := by
      intro he
      have hn' : n = attemptNo := by injection he
      have hs : s = if 1 < attemptNo then t + delay else t := by injection he
      have hlt : 1 < attemptNo := by omega
      have hfp : fired cancelAt t = false := by
        rcases hpre with h1 | h1
        · omega
        · exact h1
      exact ⟨t, by rw [hs, if_pos hlt], hfp⟩
    by_cases hlt : 1 < attemptNo
    · cases har : ar attemptNo with
      | none =>
        simp [retryAux, hlt, har] at h
        exact hfirst (by rw [h.1, h.2, if_pos hlt])
      | some e =>
        by_cases hf : fired cancelAt (t + delay + ad attemptNo) = true
        · simp [retryAux, hlt, har, hf] at h
          exact hfirst (by rw [h.1, h.2, if_pos hlt])
        · simp [retryAux, hlt, har, hf] at h
          rcases h with h | h
          · exact hfirst (by rw [h.1, h.2, if_pos hlt])
          · exact ih _ _ _ (Or.inr (by simpa using hf)) n s h hn
    · cases har : ar attemptNo with
      | none =>
        simp [retryAux, hlt, har] at h
        exact hfirst (by rw [h.1, h.2, if_neg hlt])
      | some e =>
        by_cases hf : fired cancelAt (t + ad attemptNo) = true
        · simp [retryAux, hlt, har, hf] at h
          exact hfirst (by rw [h.1, h.2, if_neg hlt])
        · simp [retryAux, hlt, har, hf] at h
          rcases h with h | h
          · exact hfirst (by rw [h.1, h.2, if_neg hlt])
          · exact ih _ _ _ (Or.inr (by simpa using hf)) n s h hn

/-- C5 amended: cancellation is honored only at the post-attempt check: a
retry-delay sleep always runs its full configured duration (it is never
aborted early), and an attempt after the first begins exactly one delay
after a post-attempt check at which the cancellation signal had not yet
fired; once the check sees the signal fired, the loop returns the
cancellation error without consuming remaining attempts. -/
theorem retryCancellationObservedAtCheck (retries : Nat) (ar : Nat → Option Err)
    (ad : Nat → Nat) (delay : Nat) (cancelAt : Option Nat) :
    (∀ s d, REv.sleep s d ∈
        (downloadWithRetry retries ar ad delay cancelAt).events → d = delay) ∧
    (∀ n s, REv.attemptStart n s ∈
        (downloadWithRetry retries ar ad delay cancelAt).events →
      2 ≤ n → ∃ t0, s = t0 + delay ∧ fired cancelAt t0 = false) :=
  ⟨fun s d h => retryAux_sleep_full retries ar ad delay cancelAt retries 1 0 .noErr s d h,
    fun n s h hn => retryAux_attemptStart_check retries ar ad delay cancelAt
      retries 1 0 .noErr (Or.inl rfl) n s h hn⟩

/-- C5 counterexample: with 3 retries, delay 5, each attempt failing after
1 time unit, and cancellation firing at time 2 (during the first
retry-delay sleep), the sleep still runs its full 5 units and attempt 2
still begins at time 6, after the signal fired. -/
theorem retrySleepNotAborted_counterexample :
    downloadWithRetry 3 (fun _ => some Err.transport) (fun _ => 1) 5 (some 2) =
      ⟨[.attemptStart 1 0, .sleep 1 5, .attemptStart 2 6], some .cancelled⟩ ∧
    REv.sleep 1 5 ∈
      (downloadWithRetry 3 (fun _ => some Err.transport) (fun _ => 1) 5 (some 2)).events ∧
    REv.attemptStart 2 6 ∈
      (downloadWithRetry 3 (fun _ => some Err.transport) (fun _ => 1) 5 (some 2)).events ∧
    (1 : Nat) < 2 ∧ (2 : Nat) < 1 + 5 ∧ fired (some 2) 6 = true := by
  refine ⟨by decide, by decide, by decide, by decide, by decide, by decide⟩

/-- Witness for the amended C5: cancellation fires at time 7, during
attempt 2; the traced sleep has its full duration 5, and attempt 2's start
time 6 is one delay after the check at time 1, where the signal had not
fired. -/
theorem retryCancellationObservedAtCheck_witness :
    REv.sleep 1 5 ∈
      (downloadWithRetry 3 (fun _ => some Err.transport) (fun _ => 1) 5 (some 7)).events ∧
    (5 : Nat) = 5 ∧
    (∃ t0, (6 : Nat) = t0 + 5 ∧ fired (some 7) t0 = false) :=
  ⟨by decide,
    (retryCancellationObservedAtCheck 3 (fun _ => some Err.transport) (fun _ => 1)
      5 (some 7)).1 1 5 (by decide),
    (retryCancellationObservedAtCheck 3 (fun _ => some Err.transport) (fun _ => 1)
      5 (some 7)).2 2 6 (by decide) (by decide)⟩

theorem retryAux_allFail (retries : Nat) (ar : Nat → Option Err) (ad : Nat → Nat)
    (delay : Nat) (e : Err) (he : ∀ n, ar n = some e) :
    ∀ (remaining attemptNo t : Nat) (lastErr : Err),
      (retryAux retries ar ad delay none remaining attemptNo t lastErr).events.countP
        isAttemptStart = remaining ∧
      (retryAux retries ar ad delay none remaining attemptNo t lastErr).result =
        some (.allAttempts retries (if remaining = 0 then lastErr else e)) := by
  intro remaining
  induction remaining with
  | zero =>
    intro attemptNo t lastErr
    simp [retryAux]
  | succ m ih =>
    intro attemptNo t lastErr
    obtain ⟨ih1, ih2⟩ := ih (attemptNo + 1)
      ((if 1 < attemptNo then t + delay else t) + ad attemptNo) e
    have hsame : (if m = 0 then e else e) = e := by
      by_cases hm : m = 0 <;> simp [hm]
    by_cases hlt : 1 < attemptNo
    · constructor
      · simp [retryAux, hlt, he attemptNo, fired, List.countP_append, isAttemptStart]
        rw [if_pos hlt] at ih1
        exact ih1
      · simp [retryAux, hlt, he attemptNo, fired]
        rw [if_pos hlt] at ih2
        rw [ih2, hsame]
    · constructor
      · simp [retryAux, hlt, he attemptNo, fired, List.countP_append, isAttemptStart]
        rw [if_neg hlt] at ih1
        exact ih1
      · simp [retryAux, hlt, he attemptNo, fired]
        rw [if_neg hlt] at ih2
        rw [ih2, hsame]

/-- C4 amended: an alias-not-found failure from source construction is
retried exactly like any other failure: with an uncancelled context and
every attempt failing at storage.NewSource, the loop performs all
configured attempts and surfaces the error wrapped with the attempt
count. -/
theorem aliasNotFoundRetriedLikeOtherFailures (retries : Nat) (hret : 1 ≤ retries)
    (url : String) (aliases : AliasMap) (e : Err)
    (hsrc : NewSource url aliases = .error e) (rest : Nat → Option Err)
    (ad : Nat → Nat) (delay : Nat) :
    (downloadWithRetry retries (sourceCreateGate url aliases rest) ad delay
      none).events.countP isAttemptStart = retries ∧
    (downloadWithRetry retries (sourceCreateGate url aliases rest) ad delay
      none).result = some (.allAttempts retries (.creatingSource e)) := by
  have he : ∀ n, sourceCreateGate url aliases rest n = some (.creatingSource e) := by
    intro n
    unfold sourceCreateGate
    rw [hsrc]
  obtain ⟨h1, h2⟩ := retryAux_allFail retries _ ad delay (.creatingSource e) he
    retries 1 0 .noErr
  refine ⟨h1, ?_⟩
  unfold downloadWithRetry
  rw [h2]
  have hne : retries ≠ 0 := by omega
  simp [hne]

/-- C4 counterexample: with 3 configured retries and a source locator
naming an alias absent from the endpoint table, the retry loop performs
all 3 attempts, not a single one: alias-not-found is retried. -/
theorem aliasNotFoundRetried_counterexample :
    (downloadWithRetry 3 (sourceCreateGate "s3://missing/key" [] fun _ => none)
      (fun _ => 1) 5 none).events.countP isAttemptStart = 3 ∧
    (downloadWithRetry 3 (sourceCreateGate "s3://missing/key" [] fun _ => none)
      (fun _ => 1) 5 none).result =
      some (.allAttempts 3 (.creatingSource (.aliasNotFound "missing"))) ∧
    (3 : Nat) ≠ 1 := by
  refine ⟨by decide, by decide, by decide⟩

/-- Witness for the amended C4 at the concrete missing-alias input. -/
theorem aliasNotFoundRetriedLikeOtherFailures_witness :
    (1 : Nat) ≤ 3 ∧
    NewSource "s3://missing/key" [] = .error (.aliasNotFound "missing") ∧
    ((downloadWithRetry 3 (sourceCreateGate "s3://missing/key" [] fun _ => none)
        (fun _ => 1) 5 none).events.countP isAttemptStart = 3 ∧
      (downloadWithRetry 3 (sourceCreateGate "s3://missing/key" [] fun _ => none)
        (fun _ => 1) 5 none).result =
        some (.allAttempts 3 (.creatingSource (.aliasNotFound "missing")))) :=
  ⟨by decide, rfl,
    aliasNotFoundRetriedLikeOtherFailures 3 (by decide) "s3://missing/key" []
      (.aliasNotFound "missing") rfl (fun _ => none) (fun _ => 1) 5⟩

theorem getD_set (l : List DownloadResult) (a : Nat) (v : DownloadResult)
    (i : Nat) (d : DownloadResult) :
    (l.set a v).getD i d = if a = i ∧ a < l.length then v else l.getD i d := by
  induction l generalizing a i with
  | nil => simp
  | cons x xs ih =>
    cases a with
    | zero =>
      cases i with
      | zero => simp
      | succ j => simp
    | succ b =>
      cases i with
      | zero => simp
      | succ j =>
        show (x :: xs.set b v).getD (j + 1) d = _
        rw [List.getD_cons_succ, List.getD_cons_succ, ih]
        have hiff : (b = j ∧ b < xs.length) ↔
            (b + 1 = j + 1 ∧ b + 1 < (x :: xs).length) := by
          simp only [List.length_cons]
          omega
        by_cases hb : b = j ∧ b < xs.length
        · rw [if_pos hb, if_pos (hiff.mp hb)]
        · rw [if_neg hb, if_neg (fun hc => hb (hiff.mpr hc))]

theorem collectResults_length (msgs : List (Nat × DownloadResult)) :
    ∀ init, (collectResults init msgs).length = init.length := by
  induction msgs with
  | nil => intro init; rfl
  | cons m rest ih =>
    intro init
    show (collectResults (init.set m.1 m.2) rest).length = _
    rw [ih, List.length_set]

theorem collectResults_getD (f : Nat → DownloadResult) (d : DownloadResult) :
    ∀ (order : List Nat) (init : List DownloadResult) (i : Nat),
      i < init.length →
      (collectResults init (order.map fun j => (j, f j))).getD i d =
        if i ∈ order then f i else init.getD i d := by
  intro order
  induction order with
  | nil =>
    intro init i hi
    simp [collectResults]
  | cons a rest ih =>
    intro init i hi
    have hstep : collectResults init ((a :: rest).map fun j => (j, f j)) =
        collectResults (init.set a (f a)) (rest.map fun j => (j, f j)) := rfl
    rw [hstep, ih (init.set a (f a)) i (by simpa using hi)]
    by_cases hmem : i ∈ rest
    · simp [hmem]
    · rw [getD_set]
      by_cases hia : a = i
      · subst hia
        simp [hmem, hi]
      · have hia2 : ¬(i = a) := fun h => hia h.symm
        simp [hmem, hia2]
        exact fun h => absurd h hia

/-- C7: the Scheduler returns exactly one DownloadResult per task, and
result i references task i of the input list, for every arrival order of
the workers' messages (any permutation of the task indices). -/
theorem schedulerPreservesOrder (tasks : List FileEntry) (errOf : Nat → Option Err)
    (order : List Nat) (hperm : order.Perm (List.range tasks.length)) :
    (schedulerDownload tasks errOf order).length = tasks.length ∧
    ∀ i, i < tasks.length →
      (schedulerDownload tasks errOf order).getD i zeroResult =
        ⟨tasks.getD i zeroFileEntry, errOf i⟩ := by
  constructor
  · unfold schedulerDownload
    rw [collectResults_length]
    simp
  · intro i hi
    unfold schedulerDownload
    rw [collectResults_getD (fun j => ⟨tasks.getD j zeroFileEntry, errOf j⟩)
      zeroResult order (List.replicate tasks.length zeroResult) i (by simpa using hi)]
    have hmem : i ∈ order := hperm.mem_iff.mpr (List.mem_range.mpr hi)
    simp [hmem]

/-- Witness for C7: two tasks whose pipelines complete in reverse order
still produce results in input order. -/
theorem schedulerPreservesOrder_witness :
    ([1, 0] : List Nat).Perm (List.range ([⟨"u0", "d0", "h0"⟩,
      ⟨"u1", "d1", "h1"⟩] : List FileEntry).length) ∧
    ((schedulerDownload [⟨"u0", "d0", "h0"⟩, ⟨"u1", "d1", "h1"⟩]
        (fun i => if i = 0 then none else some .transport) [1, 0]).length = 2 ∧
      ∀ i, i < 2 →
        (schedulerDownload [⟨"u0", "d0", "h0"⟩, ⟨"u1", "d1", "h1"⟩]
          (fun i => if i = 0 then none else some .transport) [1, 0]).getD i
            zeroResult =
          ⟨([⟨"u0", "d0", "h0"⟩, ⟨"u1", "d1", "h1"⟩] : List FileEntry).getD i
              zeroFileEntry,
            if i = 0 then none else some .transport⟩) :=
  ⟨by decide,
    schedulerPreservesOrder [⟨"u0", "d0", "h0"⟩, ⟨"u1", "d1", "h1"⟩]
      (fun i => if i = 0 then none else some .transport) [1, 0] (by decide)⟩

/-- C8: when the destination file already exists and its digest matches
the expected digest, the pipeline succeeds with no network operations at
all: neither the cache existence check nor any source request happens,
whatever the cache configuration and outcomes would have been. -/
theorem existingFileShortCircuit (hash : Bytes → Bytes) (fs : FS)
    (file : FileEntry) (cacheEnabled : Bool) (cacheResult : Bool × Option Err)
    (cacheOps sourceOps : List NetOp) (sourceResult : Option Err)
    (c : Bytes) (hc : fsGet fs file.dest = some c)
    (hv : hexEncodeToString (hash c) = file.sha256) :
    downloadFileOps hash fs file cacheEnabled cacheResult cacheOps sourceOps
      sourceResult = (none, []) := by
  unfold downloadFileOps checkExistingFile VerifyFileSHA256
  rw [hc]
  simp [hv]

/-- Witness for C8: a destination already holding correct content (byte
171 with identity hash and digest "ab") short-circuits even with the cache
enabled and a source outcome available. -/
theorem existingFileShortCircuit_witness :
    fsGet [("d", [171])] "d" = some [171] ∧
    hexEncodeToString ((fun b => b) [171]) = "ab" ∧
    downloadFileOps (fun b => b) [("d", [171])] ⟨"http://h/f", "d", "ab"⟩ true
      (true, none) [NetOp.cacheExists, NetOp.cacheDownload] [NetOp.sourceRequest]
      (some .transport) = (none, []) :=
  ⟨by decide, by decide,
    existingFileShortCircuit (fun b => b) [("d", [171])] ⟨"http://h/f", "d", "ab"⟩
      true (true, none) [NetOp.cacheExists, NetOp.cacheDownload]
      [NetOp.sourceRequest] (some .transport) [171] (by decide) (by decide)⟩

end Xget
